import Mathlib

/-!
Verification of the LDBC FinBench TSR2 read procedure
(src/tugraph/procedures/cpp/tsr2.cpp).

The procedure answers a simple read query: given an account `id` and a
half-open-on-both-ends time window `(startTime, endTime)`, it scans the
outgoing and the incoming `transfer` edges of the account vertex and
returns sum / max / count of the edge amounts inside the window, with
sum and max rounded to three decimals and max replaced by the sentinel
-1 when the count is zero.

The embedding below models:
  * the underlying directional edge cursor of the store as a list of
    edges (in storage order) plus a position (`RawCursor`);
  * the `LabeledEdgeIterator` template of the source, a wrapper holding
    a target label id and a sticky validity flag;
  * the positional seek performed by `Goto(EdgeUid(vid, 0, lid, tid, 0),
    true)` as the index of the first edge whose (label, timestamp) pair
    is lexicographically at or after (lid, tid) (`seekPos`);
  * the two aggregation for-loops of `Process` as one fuelled recursion
    (`scanLoopF`), used for both directions, plus an instrumented twin
    (`scanReadsF`) recording which positions have their fields read;
  * `std::round(x * 1000.0) / 1000` on exact rationals (`roundTo3`,
    with `cppRound` rounding halves away from zero as std::round does);
  * the request parsing, vertex / edge-label resolution and result
    assembly of `Process` (`ProcessR`), together with the trace of store
    accesses it performs (`StoreEvent`).

Edge amounts are modelled as exact rationals standing for the doubles
of the source; timestamps and counts are integers as in the source.
-/

namespace TSR2

/-- An edge as the scans see it: its label id, its `timestamp` property
and its `amount` property (tsr2.cpp reads exactly these, lines 119-120
and 143-144). -/
structure Edge where
  lid : Nat
  timestamp : ℤ
  amount : ℚ
deriving DecidableEq

/-- The raw directional edge cursor of the store: the vertex edge list
in storage order plus a current position. -/
structure RawCursor where
  edges : List Edge
  pos : Nat
deriving DecidableEq

/-- Validity of the raw cursor: it sits on a real edge. -/
def RawCursor.IsValid (c : RawCursor) : Bool :=
  decide (c.pos < c.edges.length)

/-- Label id of the edge under the raw cursor, when there is one. -/
def RawCursor.GetLabelId (c : RawCursor) : Option Nat :=
  (c.edges[c.pos]?).map Edge.lid

/-- Advancing the raw cursor one position (`EIT::Next()`). -/
def RawCursor.Next (c : RawCursor) : RawCursor :=
  ⟨c.edges, c.pos + 1⟩

/-- The `LabeledEdgeIterator<EIT>` of tsr2.cpp lines 31-60: the raw
cursor, the target label id `lid_` and the sticky flag `valid_`. -/
structure LabeledEdgeIterator where
  raw : RawCursor
  lid : Nat
  valid : Bool
deriving DecidableEq

/-- Constructor of `LabeledEdgeIterator` (line 37-39): `valid_ =
EIT::IsValid() && EIT::GetLabelId() == lid_`. -/
def mkLabeledEdgeIterator (raw : RawCursor) (lid : Nat) : LabeledEdgeIterator :=
  ⟨raw, lid, raw.IsValid && decide (raw.GetLabelId = some lid)⟩

/-- The `IsValid` member (line 41): returns the stored flag. -/
def LabeledEdgeIterator.IsValid (it : LabeledEdgeIterator) : Bool :=
  it.valid

/-- The `Next` member (lines 43-47): a no-op returning false when
already invalid; otherwise advances the raw cursor, re-checks the label
and returns the updated validity. The function returns the new iterator
state together with the returned Bool. -/
def LabeledEdgeIterator.Next (it : LabeledEdgeIterator) : LabeledEdgeIterator × Bool :=
  if it.valid then
    let r := it.raw.Next
    let v := r.IsValid && decide (r.GetLabelId = some it.lid)
    (⟨r, it.lid, v⟩, v)
  else (it, false)

/-- Iterated `Next`, keeping only the iterator state. -/
def nextN : Nat → LabeledEdgeIterator → LabeledEdgeIterator
  | 0, it => it
  | n + 1, it => nextN n (it.Next).1

/-- Position reached by `Goto(EdgeUid(vid, 0, lid, tid, 0), true)` on a
storage-ordered edge list: the first index whose (label, timestamp) is
lexicographically at or after (lid, tid); the list length (an invalid
position) when there is none. -/
def seekPos (edges : List Edge) (lid : Nat) (tid : ℤ) : Nat :=
  edges.findIdx fun ed =>
    decide (lid < ed.lid) || (decide (ed.lid = lid) && decide (tid ≤ ed.timestamp))

/-- The iterator produced by `LabeledOutEdgeIterator(vit, lid, tid)` or
`LabeledInEdgeIterator(vit, lid, tid)` (lines 62-69): raw cursor seeked
to (lid, tid), then wrapped with the label filter. -/
def mkSeekedIterator (edges : List Edge) (lid : Nat) (tid : ℤ) : LabeledEdgeIterator :=
  mkLabeledEdgeIterator ⟨edges, seekPos edges lid tid⟩ lid

/-- The per-direction accumulator of `Process`: running sum, running
max and count (lines 114-116 and 138-140, initialised to 0, 0, 0). -/
structure Acc where
  sum : ℚ
  max : ℚ
  count : ℤ
deriving DecidableEq

/-- One accumulating loop body execution (lines 127-131 / 151-155):
increment count, add the amount to the sum, and raise the max when the
amount strictly exceeds it. -/
def accStep (a : Acc) (ed : Edge) : Acc :=
  ⟨a.sum + ed.amount, if a.max < ed.amount then ed.amount else a.max, a.count + 1⟩

/-- The aggregation for-loop of `Process` (lines 117-132 and 141-156),
as a fuelled recursion: while the iterator is valid, read the edge
fields; skip the edge when `timestamp == start_time`; break when
`timestamp >= end_time`; otherwise accumulate; then advance. The fuel
only bounds the recursion depth; `scanLoop` below always supplies more
fuel than the loop can consume. -/
def scanLoopF : Nat → LabeledEdgeIterator → ℤ → ℤ → Acc → Acc
  | 0, _, _, _, a => a
  | fuel + 1, it, s, e, a =>
    if it.valid then
      match it.raw.edges[it.raw.pos]? with
      | none => a
      | some ed =>
        if ed.timestamp = s then scanLoopF fuel (it.Next).1 s e a
        else if e ≤ ed.timestamp then a
        else scanLoopF fuel (it.Next).1 s e (accStep a ed)
    else a

/-- The aggregation loop with sufficient fuel. -/
def scanLoop (it : LabeledEdgeIterator) (s e : ℤ) (a : Acc) : Acc :=
  scanLoopF (it.raw.edges.length + 1) it s e a

/-- Instrumented twin of `scanLoopF`: the list of cursor positions at
which the loop calls `GetField` (it reads the fields of every valid
edge it stops on, including skipped edges and the edge that triggers
the break). -/
def scanReadsF : Nat → LabeledEdgeIterator → ℤ → ℤ → List Nat
  | 0, _, _, _ => []
  | fuel + 1, it, s, e =>
    if it.valid then
      match it.raw.edges[it.raw.pos]? with
      | none => []
      | some ed =>
        it.raw.pos ::
          (if ed.timestamp = s then scanReadsF fuel (it.Next).1 s e
           else if e ≤ ed.timestamp then []
           else scanReadsF fuel (it.Next).1 s e)
    else []

/-- The read trace of one directional scan, with sufficient fuel. -/
def scanReads (it : LabeledEdgeIterator) (s e : ℤ) : List Nat :=
  scanReadsF (it.raw.edges.length + 1) it s e

/-- The stream of edges a valid labelled iterator can still deliver:
the suffix of the storage list from the current position, cut at the
first label mismatch (the label filter is sticky). Empty for an invalid
iterator. -/
def visibleEdges (it : LabeledEdgeIterator) : List Edge :=
  if it.valid then
    (it.raw.edges.drop it.raw.pos).takeWhile fun ed => decide (ed.lid = it.lid)
  else []

/-- The edges that actually reach the accumulating branch of the loop:
the visible stream with every edge at `timestamp = s` removed (open
start), cut at the first remaining edge with `timestamp >= e` (open
end, early break). -/
def scanWindow (it : LabeledEdgeIterator) (s e : ℤ) : List Edge :=
  ((visibleEdges it).filter fun ed => decide (ed.timestamp ≠ s)).takeWhile
    fun ed => decide (ed.timestamp < e)

/-- Well-formedness of a labelled iterator: when the flag says valid,
the raw cursor is on an edge of the target label. The constructor and
`Next` both establish this. -/
def wfIter (it : LabeledEdgeIterator) : Prop :=
  it.valid = true → it.raw.GetLabelId = some it.lid

/-- Rounding of `std::round` on exact rationals: the nearest integer,
halves rounded away from zero. -/
def cppRound (x : ℚ) : ℤ :=
  if 0 ≤ x then ⌊x + 1 / 2⌋ else ⌈x - 1 / 2⌉

/-- Lines 133-134 / 157-158: `std::round(x * 1000.0) / 1000`, rounding
to three decimal places. -/
def roundTo3 (x : ℚ) : ℚ :=
  (cppRound (x * 1000) : ℚ) / 1000

/-- One directional aggregation of `Process`: seek to (lid, start), run
the loop from the zero accumulator. Used for the outgoing loop (lines
114-132) with the vertex out-edge list and for the incoming loop (lines
138-156) with the in-edge list. -/
def directionScan (edges : List Edge) (lid : Nat) (s e : ℤ) : Acc :=
  scanLoop (mkSeekedIterator edges lid s) s e ⟨0, 0, 0⟩

/-- The six-field result record of `Process` (lines 162-175). -/
structure OutRecord where
  sumEdge1Amount : ℚ
  maxEdge1Amount : ℚ
  numEdge1 : ℤ
  sumEdge2Amount : ℚ
  maxEdge2Amount : ℚ
  numEdge2 : ℤ
deriving DecidableEq

/-- Result assembly from the two directional scans (lines 133-135,
157-159 and 162-175): round sum and max to three decimals, replace the
max by the sentinel -1 when the count is zero, outgoing fields first. -/
def buildRecord (v₁ v₂ : List Edge) (lid : Nat) (s e : ℤ) : OutRecord :=
  let ao := directionScan v₁ lid s e
  let ai := directionScan v₂ lid s e
  ⟨roundTo3 ao.sum, if ao.count = 0 then -1 else roundTo3 ao.max, ao.count,
   roundTo3 ai.sum, if ai.count = 0 then -1 else roundTo3 ai.max, ai.count⟩

/-- A vertex of the store: its unique account id and its outgoing and
incoming edge lists in storage order. -/
structure Vertex where
  accountId : ℤ
  outEdges : List Edge
  inEdges : List Edge
deriving DecidableEq

/-- The graph store as `Process` sees it: the vertices and the edge
label id registered for the name "transfer" (none when the label is
not declared in the schema). -/
structure Store where
  vertices : List Vertex
  transferLid : Option Nat
deriving DecidableEq

/-- Lookup of `txn.GetVertexByUniqueIndex(ACCOUNT_LABEL, ACCOUNT_ID,
FieldData(id))` (line 106): the vertex with the given account id, none
when absent (the C++ call throws in that case). -/
def findVertex (store : Store) (id : ℤ) : Option Vertex :=
  store.vertices.find? fun v => decide (v.accountId = id)

/-- A request after JSON parsing of the envelope: each of the three
fields is present with an integer value, or missing / malformed
(modelled as none, making `parse_from_json` throw). -/
structure RawRequest where
  id : Option ℤ
  startTime : Option ℤ
  endTime : Option ℤ
deriving DecidableEq

/-- The parsing block of `Process` (lines 92-101): the three
`parse_from_json` calls in source order; the first missing or
malformed field throws, and the catch block builds the error message. -/
def parseReq (r : RawRequest) : Except String (ℤ × ℤ × ℤ) :=
  match r.id, r.startTime, r.endTime with
  | some i, some s, some e => Except.ok (i, s, e)
  | none, _, _ => Except.error ("json parse error: missing or malformed field id")
  | some _, none, _ => Except.error ("json parse error: missing or malformed field startTime")
  | some _, some _, none => Except.error ("json parse error: missing or malformed field endTime")

/-- Store accesses `Process` can perform, in order: opening the read
transaction (line 103), the unique-index vertex lookup (line 106), the
edge-label-id lookup (line 111) and the two edge scans. -/
inductive StoreEvent where
  | openTxn : StoreEvent
  | vertexLookup : ℤ → StoreEvent
  | labelLookup : StoreEvent
  | edgeScan : StoreEvent
deriving DecidableEq

/-- Outcome of one `Process` call: `parseError msg` models `return
false` with the message in the response (lines 97-100), `storeError`
models an exception thrown by a store lookup and propagated out of
`Process` (nothing catches after line 101), `ok rec` models `return
true` with the result record in the response. -/
inductive ProcResult where
  | parseError : String → ProcResult
  | storeError : ProcResult
  | ok : OutRecord → ProcResult
deriving DecidableEq

/-- The store-access trace of a fully successful call. -/
def okTrace (id : ℤ) : List StoreEvent :=
  [StoreEvent.openTxn, StoreEvent.vertexLookup id, StoreEvent.labelLookup,
   StoreEvent.edgeScan]

/-- The whole `Process` entry point (lines 83-178): parse the request
(before any store access), open the read transaction, resolve the
vertex by unique index (throws when absent), resolve the "transfer"
label id (throws when undeclared), run the two directional scans and
assemble the record. Returns the trace of store accesses performed
together with the outcome. -/
def ProcessR (store : Store) (req : RawRequest) : List StoreEvent × ProcResult :=
  match parseReq req with
  | Except.error msg => ([], ProcResult.parseError msg)
  | Except.ok (id, s, e) =>
    match findVertex store id with
    | none => ([StoreEvent.openTxn, StoreEvent.vertexLookup id], ProcResult.storeError)
    | some v =>
      match store.transferLid with
      | none =>
        ([StoreEvent.openTxn, StoreEvent.vertexLookup id, StoreEvent.labelLookup],
         ProcResult.storeError)
      | some lid =>
        (okTrace id, ProcResult.ok (buildRecord v.outEdges v.inEdges lid s e))

/-- Concrete objects used by the claim witnesses and counterexamples. -/
def emptyVertex : Vertex := ⟨1, [], []⟩

def storeEmpty : Store := ⟨[emptyVertex], some 0⟩

def reqBasic : RawRequest := ⟨some 1, some 0, some 10⟩

def recEmpty : OutRecord := ⟨0, -1, 0, 0, -1, 0⟩

def itC2 : LabeledEdgeIterator := mkSeekedIterator [⟨0, 5, 1⟩, ⟨0, 6, 2⟩] 0 5

def itW2 : LabeledEdgeIterator := mkSeekedIterator [⟨0, 5, 1⟩, ⟨0, 20, 2⟩] 0 0

def itW1 : LabeledEdgeIterator := mkSeekedIterator [⟨0, 5, 100⟩, ⟨0, 7, 2⟩] 0 5

def itEmpty : LabeledEdgeIterator := mkSeekedIterator ([] : List Edge) 0 0

def storeC5 : Store := ⟨[⟨1, [⟨0, 100, 5⟩, ⟨0, 150, 10⟩, ⟨0, 200, 3⟩], []⟩], some 0⟩

def reqC5 : RawRequest := ⟨some 1, some 100, some 200⟩

def recC5 : OutRecord := ⟨10, 10, 1, 0, -1, 0⟩

def vertexInX : Vertex := ⟨1, [], [⟨0, 50, 7⟩]⟩

def storeInX : Store := ⟨[vertexInX], some 0⟩

def negVertex : Vertex := ⟨1, [⟨0, 150, -5⟩], []⟩

def storeNeg : Store := ⟨[negVertex], some 0⟩

def reqWindow : RawRequest := ⟨some 1, some 100, some 200⟩

def recNeg : OutRecord := ⟨-5, 0, 1, 0, -1, 0⟩

def reqUnknown : RawRequest := ⟨some 2, some 0, some 10⟩

def reqMissingEnd : RawRequest := ⟨some 1, some 2, none⟩

end TSR2

namespace TSR2

/-- The constructor establishes well-formedness. -/
theorem wf_mk (raw : RawCursor) (lid : Nat) : wfIter (mkLabeledEdgeIterator raw lid) := by
  intro h
  simp only [mkLabeledEdgeIterator, Bool.and_eq_true, decide_eq_true_eq] at h
  simpa [mkLabeledEdgeIterator] using h.2

/-- Advancing preserves well-formedness. -/
theorem wf_next (it : LabeledEdgeIterator) (h : wfIter it) : wfIter (it.Next).1 := by
  by_cases hv : it.valid = true
  · intro h2
    simp only [LabeledEdgeIterator.Next, hv, if_true] at h2 ⊢
    simp only [Bool.and_eq_true, decide_eq_true_eq] at h2
    simpa using h2.2
  · simpa [LabeledEdgeIterator.Next, hv] using h

/-- Decomposition of the visible stream at a valid position. -/
theorem visible_cons (it : LabeledEdgeIterator) (ed : Edge)
    (hv : it.valid = true) (hwf : wfIter it)
    (hed : it.raw.edges[it.raw.pos]? = some ed) :
    ed.lid = it.lid ∧ visibleEdges it = ed :: visibleEdges (it.Next).1 := by
  have hlid : ed.lid = it.lid := by
    have h1 := hwf hv
    rw [RawCursor.GetLabelId, hed] at h1
    simpa using h1
  refine ⟨hlid, ?_⟩
  obtain ⟨hpos, hgot⟩ := List.getElem?_eq_some.mp hed
  have hdrop : it.raw.edges.drop it.raw.pos = ed :: it.raw.edges.drop (it.raw.pos + 1) := by
    rw [List.drop_eq_getElem_cons hpos, hgot]
  have hnext1 : (it.Next).1 =
      ⟨it.raw.Next, it.lid,
        it.raw.Next.IsValid && decide (it.raw.Next.GetLabelId = some it.lid)⟩ := by
    simp [LabeledEdgeIterator.Next, hv]
  rw [visibleEdges, if_pos hv, hdrop, List.takeWhile_cons, if_pos (by simp [hlid])]
  rw [hnext1, visibleEdges]
  by_cases hb : (it.raw.Next.IsValid && decide (it.raw.Next.GetLabelId = some it.lid)) = true
  · rw [if_pos hb]
    rfl
  · rw [if_neg hb]
    simp only [Bool.and_eq_true, decide_eq_true_eq, not_and] at hb
    by_cases hval : it.raw.Next.IsValid = true
    · have hne := hb hval
      rw [RawCursor.IsValid, decide_eq_true_eq] at hval
      have hget : it.raw.edges[it.raw.pos + 1]? = some (it.raw.edges[it.raw.pos + 1]) :=
        List.getElem?_eq_getElem hval
      have hdrop2 : it.raw.edges.drop (it.raw.pos + 1) =
          it.raw.edges[it.raw.pos + 1] :: it.raw.edges.drop (it.raw.pos + 2) :=
        List.drop_eq_getElem_cons hval
      rw [hdrop2, List.takeWhile_cons, if_neg]
      simp only [decide_eq_true_eq]
      intro hcon
      apply hne
      rw [RawCursor.GetLabelId]
      simp only [RawCursor.Next] at hget ⊢
      rw [hget]
      simpa using hcon
    · have hlen : it.raw.edges.length ≤ it.raw.pos + 1 := by
        simp only [RawCursor.IsValid, RawCursor.Next, decide_eq_true_eq, not_lt] at hval
        omega
      rw [List.drop_eq_nil_of_le hlen]
      simp

end TSR2

namespace TSR2

/-- Any member of the scan window has a timestamp different from the
start bound. -/
theorem mem_scanWindow_ts_ne (it : LabeledEdgeIterator) (s e : ℤ) (x : Edge)
    (hx : x ∈ scanWindow it s e) : x.timestamp ≠ s := by
  rw [scanWindow] at hx
  have hx2 := (List.takeWhile_sublist _).mem hx
  have := List.of_mem_filter hx2
  simpa using this

/-- Any member of the scan window has a timestamp strictly below
the end bound. -/
theorem mem_scanWindow_ts_lt (it : LabeledEdgeIterator) (s e : ℤ) (x : Edge)
    (hx : x ∈ scanWindow it s e) : x.timestamp < e := by
  rw [scanWindow] at hx
  have := List.mem_takeWhile_imp hx
  simpa using this

/-- Fuelled form of the loop characterisation: with enough fuel and a
well-formed iterator, the loop is a fold of the accumulating step over
the scan window. -/
theorem scanLoopF_char (fuel : Nat) :
    ∀ (it : LabeledEdgeIterator) (s e : ℤ) (a : Acc), wfIter it →
      it.raw.edges.length - it.raw.pos < fuel →
      scanLoopF fuel it s e a = List.foldl accStep a (scanWindow it s e) := by
  induction fuel with
  | zero => intro it s e a _ hf; omega
  | succ fuel ih =>
    intro it s e a hwf hf
    by_cases hv : it.valid = true
    · cases hed : it.raw.edges[it.raw.pos]? with
      | none =>
        exact absurd (hwf hv) (by rw [RawCursor.GetLabelId, hed]; simp)
      | some ed =>
        obtain ⟨hlid, hvis⟩ := visible_cons it ed hv hwf hed
        have hpos := (List.getElem?_eq_some.mp hed).1
        have hnpos : (it.Next).1.raw.pos = it.raw.pos + 1 := by
          simp [LabeledEdgeIterator.Next, hv, RawCursor.Next]
        have hnedges : (it.Next).1.raw.edges = it.raw.edges := by
          simp [LabeledEdgeIterator.Next, hv, RawCursor.Next]
        have hwf2 := wf_next it hwf
        have hf2 : (it.Next).1.raw.edges.length - (it.Next).1.raw.pos < fuel := by
          rw [hnpos, hnedges]; omega
        by_cases hts : ed.timestamp = s
        · have hw : scanWindow it s e = scanWindow (it.Next).1 s e := by
            rw [scanWindow, scanWindow, hvis, List.filter_cons, if_neg (by simp [hts])]
          simp only [scanLoopF, hv, if_true, hed]
          rw [if_pos hts, hw]
          exact ih (it.Next).1 s e a hwf2 hf2
        · by_cases hend : e ≤ ed.timestamp
          · have hw : scanWindow it s e = [] := by
              rw [scanWindow, hvis, List.filter_cons, if_pos (by simp [hts]),
                List.takeWhile_cons, if_neg (by simp; omega)]
            simp only [scanLoopF, hv, if_true, hed]
            rw [if_neg hts, if_pos hend, hw]
            rfl
          · have hw : scanWindow it s e = ed :: scanWindow (it.Next).1 s e := by
              rw [scanWindow, scanWindow, hvis, List.filter_cons, if_pos (by simp [hts]),
                List.takeWhile_cons, if_pos (by simp; omega)]
            simp only [scanLoopF, hv, if_true, hed]
            rw [if_neg hts, if_neg hend, hw, List.foldl_cons]
            exact ih (it.Next).1 s e (accStep a ed) hwf2 hf2
    · have hv2 : it.valid = false := by
        cases h2 : it.valid
        · rfl
        · exact absurd h2 hv
      have hw : scanWindow it s e = [] := by
        rw [scanWindow, visibleEdges, if_neg hv]
        rfl
      rw [hw]
      simp [scanLoopF, hv2]

/-- Loop characterisation for the wrapper with its actual fuel. -/
theorem scanLoop_char (it : LabeledEdgeIterator) (s e : ℤ) (a : Acc)
    (hwf : wfIter it) :
    scanLoop it s e a = List.foldl accStep a (scanWindow it s e) :=
  scanLoopF_char _ it s e a hwf (by omega)

end TSR2

namespace TSR2

/-- Every recorded read position is at or after the cursor position. -/
theorem scanReadsF_ge (fuel : Nat) :
    ∀ (it : LabeledEdgeIterator) (s e : ℤ) (j : Nat),
      j ∈ scanReadsF fuel it s e → it.raw.pos ≤ j := by
  induction fuel with
  | zero => intro it s e j h; simp [scanReadsF] at h
  | succ fuel ih =>
    intro it s e j h
    by_cases hv : it.valid = true
    · cases hed : it.raw.edges[it.raw.pos]? with
      | none => simp [scanReadsF, hv, hed] at h
      | some ed =>
        have hnpos : (it.Next).1.raw.pos = it.raw.pos + 1 := by
          simp [LabeledEdgeIterator.Next, hv, RawCursor.Next]
        simp only [scanReadsF, hv, if_true, hed] at h
        rcases List.mem_cons.mp h with h1 | h2
        · omega
        · by_cases hts : ed.timestamp = s
          · rw [if_pos hts] at h2
            have := ih (it.Next).1 s e j h2
            omega
          · by_cases hend : e ≤ ed.timestamp
            · rw [if_neg hts, if_pos hend] at h2
              simp at h2
            · rw [if_neg hts, if_neg hend] at h2
              have := ih (it.Next).1 s e j h2
              omega
    · have hv2 : it.valid = false := by
        cases h2 : it.valid
        · rfl
        · exact absurd h2 hv
      simp [scanReadsF, hv2] at h

/-- When the window is forward (start below end), a read edge whose
timestamp is at or after the end bound is the last read: every read
position is at or before it. -/
theorem scanReadsF_last (fuel : Nat) :
    ∀ (it : LabeledEdgeIterator) (s e : ℤ) (i : Nat) (ed : Edge),
      s < e → i ∈ scanReadsF fuel it s e → it.raw.edges[i]? = some ed →
      e ≤ ed.timestamp → ∀ j ∈ scanReadsF fuel it s e, j ≤ i := by
  induction fuel with
  | zero => intro it s e i ed _ hi; simp [scanReadsF] at hi
  | succ fuel ih =>
    intro it s e i ed hse hi hed hts j hj
    by_cases hv : it.valid = true
    · cases hed0 : it.raw.edges[it.raw.pos]? with
      | none => simp [scanReadsF, hv, hed0] at hi
      | some ed0 =>
        have hnpos : (it.Next).1.raw.pos = it.raw.pos + 1 := by
          simp [LabeledEdgeIterator.Next, hv, RawCursor.Next]
        have hnedges : (it.Next).1.raw.edges = it.raw.edges := by
          simp [LabeledEdgeIterator.Next, hv, RawCursor.Next]
        simp only [scanReadsF, hv, if_true, hed0] at hi hj
        rcases List.mem_cons.mp hi with hi1 | hi2
        · -- the edge with the late timestamp is the one under the cursor
          subst hi1
          have hedeq : ed0 = ed := by
            rw [hed0] at hed
            exact Option.some.inj hed
          subst hedeq
          have hts0 : ¬ ed0.timestamp = s := by intro h0; omega
          rw [if_neg hts0, if_pos hts] at hj
          rcases List.mem_cons.mp hj with hj1 | hj2
          · omega
          · simp at hj2
        · -- the late edge is read further on: recurse
          have hposle : it.raw.pos + 1 ≤ i := by
            by_cases hts0 : ed0.timestamp = s
            · rw [if_pos hts0] at hi2
              have := scanReadsF_ge fuel (it.Next).1 s e i hi2
              omega
            · by_cases hend0 : e ≤ ed0.timestamp
              · rw [if_neg hts0, if_pos hend0] at hi2
                simp at hi2
              · rw [if_neg hts0, if_neg hend0] at hi2
                have := scanReadsF_ge fuel (it.Next).1 s e i hi2
                omega
          rcases List.mem_cons.mp hj with hj1 | hj2
          · omega
          · have hed2 : (it.Next).1.raw.edges[i]? = some ed := by rw [hnedges]; exact hed
            by_cases hts0 : ed0.timestamp = s
            · rw [if_pos hts0] at hi2 hj2
              exact ih (it.Next).1 s e i ed hse hi2 hed2 hts j hj2
            · by_cases hend0 : e ≤ ed0.timestamp
              · rw [if_neg hts0, if_pos hend0] at hi2
                simp at hi2
              · rw [if_neg hts0, if_neg hend0] at hi2 hj2
                exact ih (it.Next).1 s e i ed hse hi2 hed2 hts j hj2
    · have hv2 : it.valid = false := by
        cases h2 : it.valid
        · rfl
        · exact absurd h2 hv
      simp [scanReadsF, hv2] at hi

/-- Rounding a nonnegative value keeps it nonnegative. -/
theorem roundTo3_nonneg (x : ℚ) (hx : 0 ≤ x) : 0 ≤ roundTo3 x := by
  rw [roundTo3, cppRound, if_pos (mul_nonneg hx (by norm_num))]
  have h1 : (0:ℤ) ≤ ⌊x * 1000 + 1/2⌋ := by
    apply Int.floor_nonneg.mpr
    have : (0:ℚ) ≤ x * 1000 := mul_nonneg hx (by norm_num)
    linarith
  apply div_nonneg _ (by norm_num)
  exact_mod_cast h1

/-- Rounding fixes integers; three-decimal rounding of a whole number
returns it unchanged. -/
theorem roundTo3_intCast (n : ℤ) : roundTo3 (n : ℚ) = (n : ℚ) := by
  rw [roundTo3, cppRound]
  by_cases hn : (0:ℚ) ≤ (n:ℚ) * 1000
  · rw [if_pos hn]
    have h1 : ⌊(n:ℚ) * 1000 + 1/2⌋ = n * 1000 := by
      rw [Int.floor_eq_iff]
      constructor
      · push_cast
        linarith
      · push_cast
        linarith
    rw [h1]
    push_cast
    field_simp
  · rw [if_neg hn]
    have h1 : ⌈(n:ℚ) * 1000 - 1/2⌉ = n * 1000 := by
      rw [Int.ceil_eq_iff]
      constructor
      · push_cast
        linarith
      · push_cast
        linarith
    rw [h1]
    push_cast
    field_simp

/-- Rounding of zero. -/
theorem roundTo3_zero : roundTo3 0 = 0 := by
  have := roundTo3_intCast 0
  simpa using this

/-- The running max of a fold of accumulating steps stays nonnegative. -/
theorem foldl_max_nonneg (l : List Edge) :
    ∀ a : Acc, 0 ≤ a.max → 0 ≤ (List.foldl accStep a l).max := by
  induction l with
  | nil => intro a ha; simpa using ha
  | cons x l ih =>
    intro a ha
    rw [List.foldl_cons]
    apply ih
    rw [accStep]
    by_cases h : a.max < x.amount
    · simp only [if_pos h]
      linarith
    · simpa [if_neg h] using ha

/-- When every edge of the stream has a negative amount, the running
max of the fold never moves. -/
theorem foldl_max_of_neg (l : List Edge) :
    ∀ a : Acc, (∀ x ∈ l, x.amount < 0) → 0 ≤ a.max →
      (List.foldl accStep a l).max = a.max := by
  induction l with
  | nil => intro a _ _; rfl
  | cons x l ih =>
    intro a hneg ha
    rw [List.foldl_cons]
    have hx : x.amount < 0 := hneg x (List.mem_cons_self x l)
    have hstep : (accStep a x).max = a.max := by
      rw [accStep]
      simp only []
      rw [if_neg (by linarith)]
    rw [show List.foldl accStep (accStep a x) l = List.foldl accStep (accStep a x) l from rfl]
    have := ih (accStep a x) (fun y hy => hneg y (List.mem_cons_of_mem x hy)) (by rw [hstep]; linarith)
    rw [this, hstep]

end TSR2

namespace TSR2

/-- Unfolding of the record builder. -/
theorem buildRecord_fields (v₁ v₂ : List Edge) (lid : Nat) (s e : ℤ) :
    buildRecord v₁ v₂ lid s e =
      ⟨roundTo3 (directionScan v₁ lid s e).sum,
       if (directionScan v₁ lid s e).count = 0 then -1
         else roundTo3 (directionScan v₁ lid s e).max,
       (directionScan v₁ lid s e).count,
       roundTo3 (directionScan v₂ lid s e).sum,
       if (directionScan v₂ lid s e).count = 0 then -1
         else roundTo3 (directionScan v₂ lid s e).max,
       (directionScan v₂ lid s e).count⟩ := rfl

/-- On fully resolvable input, `ProcessR` performs the whole trace and
emits the record built from the two directional scans. -/
theorem processR_ok (store : Store) (req : RawRequest) (id s e : ℤ) (v : Vertex)
    (lid : Nat) (hp : parseReq req = Except.ok (id, s, e))
    (hfv : findVertex store id = some v) (hl : store.transferLid = some lid) :
    ProcessR store req =
      (okTrace id, ProcResult.ok (buildRecord v.outEdges v.inEdges lid s e)) := by
  simp [ProcessR, hp, hfv, hl]

/-- Inversion: a successful call resolves everything and emits the
record built from the two scans. -/
theorem processR_ok_inv (store : Store) (req : RawRequest) (tr : List StoreEvent)
    (rec : OutRecord) (h : ProcessR store req = (tr, ProcResult.ok rec)) :
    ∃ id s e v lid, parseReq req = Except.ok (id, s, e) ∧
      findVertex store id = some v ∧ store.transferLid = some lid ∧
      tr = okTrace id ∧ rec = buildRecord v.outEdges v.inEdges lid s e := by
  rcases hp : parseReq req with m | t
  · simp [ProcessR, hp] at h
  · obtain ⟨id, s, e⟩ := t
    rcases hfv : findVertex store id with _ | v
    · simp [ProcessR, hp, hfv] at h
    · rcases hl : store.transferLid with _ | lid
      · simp [ProcessR, hp, hfv, hl] at h
      · simp only [ProcessR, hp, hfv, hl, Prod.mk.injEq, ProcResult.ok.injEq] at h
        exact ⟨id, s, e, v, lid, rfl, hfv, rfl, h.1.symm, h.2.symm⟩

/-- The seeked iterator is well formed. -/
theorem wf_seeked (edges : List Edge) (lid : Nat) (tid : ℤ) :
    wfIter (mkSeekedIterator edges lid tid) :=
  wf_mk _ _

/-- The running max a directional scan accumulates is nonnegative. -/
theorem directionScan_max_nonneg (edges : List Edge) (lid : Nat) (s e : ℤ) :
    0 ≤ (directionScan edges lid s e).max := by
  rw [directionScan, scanLoop_char _ _ _ _ (wf_seeked _ _ _)]
  exact foldl_max_nonneg _ _ (by norm_num)

/-- The sentinel replacement makes the count-zero test and the minus
one test coincide, given the accumulated max is nonnegative. -/
theorem sentinel_iff (a : Acc) (hmax : 0 ≤ a.max) :
    (a.count = 0 ↔ (if a.count = 0 then (-1 : ℚ) else roundTo3 a.max) = -1) := by
  constructor
  · intro h
    rw [if_pos h]
  · intro h
    by_contra hc
    rw [if_neg hc] at h
    have h2 := roundTo3_nonneg a.max hmax
    rw [h] at h2
    norm_num at h2

/-- Once invalid, iterating the advance never restores validity. -/
theorem nextN_invalid (n : Nat) :
    ∀ it : LabeledEdgeIterator, it.valid = false → (nextN n it).valid = false := by
  induction n with
  | zero => intro it h; simpa [nextN] using h
  | succ n ih =>
    intro it h
    rw [nextN]
    have hstep : it.Next = (it, false) := by
      simp [LabeledEdgeIterator.Next, h]
    rw [hstep]
    exact ih it h

end TSR2

namespace TSR2

/-- Rounding of ten. -/
theorem roundTo3_ten : roundTo3 (10 : ℚ) = 10 := by
  have h := roundTo3_intCast 10
  push_cast at h
  exact h

/-- Rounding of minus five. -/
theorem roundTo3_negFive : roundTo3 (-5 : ℚ) = -5 := by
  have h := roundTo3_intCast (-5)
  push_cast at h
  exact h

/-- A directional scan over no edges yields the zero accumulator. -/
theorem dirScan_nil (lid : Nat) (s e : ℤ) :
    directionScan ([] : List Edge) lid s e = ⟨0, 0, 0⟩ := rfl

/-- The record built from two empty scans. -/
theorem buildRecord_nil : buildRecord ([] : List Edge) ([] : List Edge) 0 0 10 = recEmpty := by
  rw [buildRecord_fields, dirScan_nil]
  simp [recEmpty, roundTo3_zero]

/-- Evaluation of the whole call on the one-vertex store with no
edges. -/
theorem processR_empty :
    ProcessR storeEmpty reqBasic = (okTrace 1, ProcResult.ok recEmpty) := by
  have h := processR_ok storeEmpty reqBasic 1 0 10 emptyVertex 0 rfl rfl rfl
  rw [h]
  rw [show emptyVertex.outEdges = ([] : List Edge) from rfl,
    show emptyVertex.inEdges = ([] : List Edge) from rfl, buildRecord_nil]

/-- The outgoing scan of scenario 1: only the edge at timestamp 150 is
aggregated. -/
theorem dirScanC5_out :
    directionScan [⟨0, 100, 5⟩, ⟨0, 150, 10⟩, ⟨0, 200, 3⟩] 0 100 200 = ⟨10, 10, 1⟩ := by
  rw [directionScan, scanLoop_char _ _ _ _ (wf_seeked _ _ _)]
  have hw : scanWindow (mkSeekedIterator [⟨0, 100, 5⟩, ⟨0, 150, 10⟩, ⟨0, 200, 3⟩] 0 100)
      100 200 = [⟨0, 150, 10⟩] := rfl
  rw [hw]
  norm_num [accStep, Acc.mk.injEq]

/-- An incoming edge past the window end contributes nothing. -/
theorem dirScan_inX : directionScan [⟨0, 50, 7⟩] 0 0 10 = ⟨0, 0, 0⟩ := rfl

/-- Evaluation of the whole call on the store whose single vertex has
one in-window negative outgoing amount. -/
theorem dirScan_neg : directionScan [⟨0, 150, -5⟩] 0 100 200 = ⟨-5, 0, 1⟩ := by
  rw [directionScan, scanLoop_char _ _ _ _ (wf_seeked _ _ _)]
  have hw : scanWindow (mkSeekedIterator [⟨0, 150, -5⟩] 0 100) 100 200 = [⟨0, 150, -5⟩] := rfl
  rw [hw]
  norm_num [accStep, Acc.mk.injEq]

end TSR2

namespace TSR2

/-- Claim C1: every edge scanned by either directional aggregation
whose timestamp equals start_time is skipped: the loop result is a
fold over a stream from which every such edge has been removed, so it
is not counted, not summed, and never updates the max, regardless of
its amount. Both loops of Process are instances of scanLoop, so the
statement covers the outgoing and the incoming direction. -/
theorem start_time_edges_skipped (it : LabeledEdgeIterator) (s e : ℤ) (a : Acc)
    (hwf : wfIter it) :
    scanLoop it s e a = List.foldl accStep a (scanWindow it s e) ∧
    ∀ x ∈ scanWindow it s e, x.timestamp ≠ s :=
  ⟨scanLoop_char it s e a hwf, fun x hx => mem_scanWindow_ts_ne it s e x hx⟩

/-- Witness for C1 at a concrete iterator: the edge at the start
timestamp carries the large amount 100 and is still skipped. -/
theorem start_time_edges_skipped_witness :
    scanLoop itW1 5 10 ⟨0, 0, 0⟩ =
      List.foldl accStep ⟨0, 0, 0⟩ (scanWindow itW1 5 10) ∧
    ∀ x ∈ scanWindow itW1 5 10, x.timestamp ≠ 5 :=
  start_time_edges_skipped itW1 5 10 ⟨0, 0, 0⟩ (wf_seeked _ _ _)

/-- Counterexample to C2 as stated: with start_time = 5 and end_time =
3 the scan reads position 0, whose edge has timestamp 5 ≥ end_time,
and still reads position 1 afterwards (the open-start skip fires
before the end-bound check), so the first edge at or past end_time
does not terminate the scan. -/
theorem end_bound_stop_counterexample :
    0 ∈ scanReads itC2 5 3 ∧
    (itC2.raw.edges[0]?).map Edge.timestamp = some 5 ∧
    (3 : ℤ) ≤ 5 ∧
    1 ∈ scanReads itC2 5 3 ∧
    ¬ (1 ≤ 0) := by
  refine ⟨by decide, by decide, by decide, by decide, by decide⟩

/-- Claim C2 amended: provided start_time < end_time, any read edge
whose timestamp is at or past end_time is the last read of the scan
(no later position is ever inspected), it never enters the scan
window, and the aggregate is the fold over that window. -/
theorem end_bound_stop_amended (it : LabeledEdgeIterator) (s e : ℤ) (a : Acc)
    (i : Nat) (ed : Edge) (hwf : wfIter it) (hse : s < e)
    (hi : i ∈ scanReads it s e) (hed : it.raw.edges[i]? = some ed)
    (hts : e ≤ ed.timestamp) :
    (∀ j ∈ scanReads it s e, j ≤ i) ∧ ed ∉ scanWindow it s e ∧
    scanLoop it s e a = List.foldl accStep a (scanWindow it s e) := by
  refine ⟨fun j hj => scanReadsF_last _ it s e i ed hse hi hed hts j hj, ?_,
    scanLoop_char it s e a hwf⟩
  intro hmem
  have h2 := mem_scanWindow_ts_lt it s e ed hmem
  omega

/-- Witness for the amended C2 at a concrete forward window: position
1 holds the edge at timestamp 20 ≥ end_time 10 and is the last read. -/
theorem end_bound_stop_amended_witness :
    (∀ j ∈ scanReads itW2 0 10, j ≤ 1) ∧
    (⟨0, 20, 2⟩ : Edge) ∉ scanWindow itW2 0 10 ∧
    scanLoop itW2 0 10 ⟨0, 0, 0⟩ =
      List.foldl accStep ⟨0, 0, 0⟩ (scanWindow itW2 0 10) :=
  end_bound_stop_amended itW2 0 10 ⟨0, 0, 0⟩ 1 ⟨0, 20, 2⟩ (wf_seeked _ _ _)
    (by decide) (by decide) rfl (by decide)

/-- Claim C3: in every successful query the zero count and the minus
one sentinel coincide, in each direction. -/
theorem count_zero_iff_max_sentinel (store : Store) (req : RawRequest)
    (tr : List StoreEvent) (rec : OutRecord)
    (h : ProcessR store req = (tr, ProcResult.ok rec)) :
    (rec.numEdge1 = 0 ↔ rec.maxEdge1Amount = -1) ∧
    (rec.numEdge2 = 0 ↔ rec.maxEdge2Amount = -1) := by
  obtain ⟨id, s, e, v, lid, hp, hfv, hl, htr, hrec⟩ := processR_ok_inv store req tr rec h
  subst hrec
  rw [buildRecord_fields]
  exact ⟨sentinel_iff _ (directionScan_max_nonneg v.outEdges lid s e),
    sentinel_iff _ (directionScan_max_nonneg v.inEdges lid s e)⟩

/-- Witness for C3 on the concrete empty store: both directions have
count 0 and sentinel max. -/
theorem count_zero_iff_max_sentinel_witness :
    (recEmpty.numEdge1 = 0 ↔ recEmpty.maxEdge1Amount = -1) ∧
    (recEmpty.numEdge2 = 0 ↔ recEmpty.maxEdge2Amount = -1) :=
  count_zero_iff_max_sentinel storeEmpty reqBasic (okTrace 1) recEmpty processR_empty

/-- Claim C9: the labelled iterator advance is a monotone one-way
filter: on an invalid iterator it returns false without touching the
raw cursor; on a valid one it advances the raw cursor one position,
re-checks the label, stores and returns the new validity; and no
number of advances ever revalidates an invalid iterator. -/
theorem next_monotone_filter (it : LabeledEdgeIterator) :
    (it.valid = false → it.Next = (it, false)) ∧
    (it.valid = true →
      (it.Next).1.raw = it.raw.Next ∧
      (it.Next).1.valid =
        (it.raw.Next.IsValid && decide (it.raw.Next.GetLabelId = some it.lid)) ∧
      (it.Next).2 = (it.Next).1.valid) ∧
    (it.valid = false → ∀ n, (nextN n it).valid = false) := by
  refine ⟨?_, ?_, ?_⟩
  · intro h
    simp [LabeledEdgeIterator.Next, h]
  · intro h
    simp [LabeledEdgeIterator.Next, h]
  · intro h n
    exact nextN_invalid n it h

/-- Witness for C9 at the concrete invalid iterator over the empty
edge list. -/
theorem next_monotone_filter_witness :
    (nextN 3 itEmpty).valid = false ∧ itEmpty.Next = (itEmpty, false) :=
  ⟨(next_monotone_filter itEmpty).2.2 rfl 3, (next_monotone_filter itEmpty).1 rfl⟩

/-- Claim C10: in a successful query, whenever a direction aggregates
at least one edge but every in-window amount is negative, the emitted
max of that direction is 0, strictly above every in-window amount, so
it is not the true maximum. -/
theorem negative_amounts_max_zero (store : Store) (req : RawRequest) (id s e : ℤ)
    (v : Vertex) (lid : Nat) (tr : List StoreEvent) (rec : OutRecord)
    (hp : parseReq req = Except.ok (id, s, e)) (hfv : findVertex store id = some v)
    (hl : store.transferLid = some lid)
    (hr : ProcessR store req = (tr, ProcResult.ok rec)) :
    ((directionScan v.outEdges lid s e).count ≠ 0 →
      (∀ x ∈ scanWindow (mkSeekedIterator v.outEdges lid s) s e, x.amount < 0) →
      rec.maxEdge1Amount = 0 ∧
      ∀ x ∈ scanWindow (mkSeekedIterator v.outEdges lid s) s e,
        x.amount < rec.maxEdge1Amount) ∧
    ((directionScan v.inEdges lid s e).count ≠ 0 →
      (∀ x ∈ scanWindow (mkSeekedIterator v.inEdges lid s) s e, x.amount < 0) →
      rec.maxEdge2Amount = 0 ∧
      ∀ x ∈ scanWindow (mkSeekedIterator v.inEdges lid s) s e,
        x.amount < rec.maxEdge2Amount) := by
  have hPR := processR_ok store req id s e v lid hp hfv hl
  rw [hPR] at hr
  simp only [Prod.mk.injEq, ProcResult.ok.injEq] at hr
  have hrec : rec = buildRecord v.outEdges v.inEdges lid s e := hr.2.symm
  subst hrec
  rw [buildRecord_fields]
  constructor
  · intro hc hneg
    have hmax : (directionScan v.outEdges lid s e).max = 0 := by
      rw [directionScan, scanLoop_char _ _ _ _ (wf_seeked _ _ _)]
      exact foldl_max_of_neg _ _ hneg (by norm_num)
    have hfield :
        (if (directionScan v.outEdges lid s e).count = 0 then (-1 : ℚ)
          else roundTo3 (directionScan v.outEdges lid s e).max) = 0 := by
      rw [if_neg hc, hmax, roundTo3_zero]
    refine ⟨hfield, ?_⟩
    intro x hx
    have := hneg x hx
    simp only [hfield]
    linarith
  · intro hc hneg
    have hmax : (directionScan v.inEdges lid s e).max = 0 := by
      rw [directionScan, scanLoop_char _ _ _ _ (wf_seeked _ _ _)]
      exact foldl_max_of_neg _ _ hneg (by norm_num)
    have hfield :
        (if (directionScan v.inEdges lid s e).count = 0 then (-1 : ℚ)
          else roundTo3 (directionScan v.inEdges lid s e).max) = 0 := by
      rw [if_neg hc, hmax, roundTo3_zero]
    refine ⟨hfield, ?_⟩
    intro x hx
    have := hneg x hx
    simp only [hfield]
    linarith

end TSR2

namespace TSR2

/-- Evaluation of the whole call on the store with one in-window
negative outgoing amount. -/
theorem processR_neg : ProcessR storeNeg reqWindow = (okTrace 1, ProcResult.ok recNeg) := by
  have h := processR_ok storeNeg reqWindow 1 100 200 negVertex 0 rfl rfl rfl
  rw [h]
  have hb : buildRecord negVertex.outEdges negVertex.inEdges 0 100 200 = recNeg := by
    rw [show negVertex.outEdges = [⟨0, 150, -5⟩] from rfl,
      show negVertex.inEdges = ([] : List Edge) from rfl, buildRecord_fields, dirScan_neg,
      dirScan_nil]
    simp [recNeg, roundTo3_zero, roundTo3_negFive]
  rw [hb]

/-- Evaluation of the whole call on the store whose vertex has one
out-of-window incoming edge. -/
theorem processR_inX : ProcessR storeInX reqBasic = (okTrace 1, ProcResult.ok recEmpty) := by
  have h := processR_ok storeInX reqBasic 1 0 10 vertexInX 0 rfl rfl rfl
  rw [h]
  have hb : buildRecord vertexInX.outEdges vertexInX.inEdges 0 0 10 = recEmpty := by
    rw [show vertexInX.outEdges = ([] : List Edge) from rfl,
      show vertexInX.inEdges = [⟨0, 50, 7⟩] from rfl, buildRecord_fields, dirScan_nil,
      dirScan_inX]
    simp [recEmpty, roundTo3_zero]
  rw [hb]

/-- Witness for C10 at the concrete store: the only in-window outgoing
amount is -5, the count is 1, and the emitted outgoing max is 0. -/
theorem negative_amounts_max_zero_witness :
    recNeg.maxEdge1Amount = 0 ∧
    ∀ x ∈ scanWindow (mkSeekedIterator negVertex.outEdges 0 100) 100 200,
      x.amount < recNeg.maxEdge1Amount :=
  (negative_amounts_max_zero storeNeg reqWindow 1 100 200 negVertex 0 (okTrace 1) recNeg
      rfl rfl rfl processR_neg).1
    (by rw [show negVertex.outEdges = [⟨0, 150, -5⟩] from rfl, dirScan_neg]; norm_num)
    (by
      intro x hx
      rw [show scanWindow (mkSeekedIterator negVertex.outEdges 0 100) 100 200 =
        [⟨0, 150, -5⟩] from rfl] at hx
      simp only [List.mem_singleton] at hx
      rw [hx]
      norm_num)

/-- Counterexample to C4 as stated: on the empty store the query
succeeds, the emitted outgoing max is the sentinel -1, yet the
accumulated outgoing max rounded to three decimals is 0, not -1. -/
theorem rounding_claim_counterexample :
    (ProcessR storeEmpty reqBasic).2 = ProcResult.ok recEmpty ∧
    recEmpty.maxEdge1Amount = -1 ∧
    roundTo3 (directionScan emptyVertex.outEdges 0 0 10).max ≠ -1 := by
  refine ⟨by rw [processR_empty], rfl, ?_⟩
  rw [show emptyVertex.outEdges = ([] : List Edge) from rfl, dirScan_nil]
  rw [show (⟨0, 0, 0⟩ : Acc).max = 0 from rfl, roundTo3_zero]
  norm_num

/-- Claim C4 amended: in every successful query the emitted sums are
the accumulated sums rounded to three decimals (halves away from
zero), the emitted maxima likewise whenever the count of a direction is
nonzero (when it is zero the sentinel -1 is emitted instead), and the
rounding maps the accumulated value 12.34567 to 12.346. -/
theorem rounding_amended (store : Store) (req : RawRequest) (id s e : ℤ)
    (v : Vertex) (lid : Nat) (tr : List StoreEvent) (rec : OutRecord)
    (hp : parseReq req = Except.ok (id, s, e)) (hfv : findVertex store id = some v)
    (hl : store.transferLid = some lid)
    (hr : ProcessR store req = (tr, ProcResult.ok rec)) :
    rec.sumEdge1Amount = roundTo3 (directionScan v.outEdges lid s e).sum ∧
    rec.sumEdge2Amount = roundTo3 (directionScan v.inEdges lid s e).sum ∧
    ((directionScan v.outEdges lid s e).count ≠ 0 →
      rec.maxEdge1Amount = roundTo3 (directionScan v.outEdges lid s e).max) ∧
    ((directionScan v.inEdges lid s e).count ≠ 0 →
      rec.maxEdge2Amount = roundTo3 (directionScan v.inEdges lid s e).max) ∧
    roundTo3 (1234567 / 100000 : ℚ) = 12346 / 1000 := by
  have hPR := processR_ok store req id s e v lid hp hfv hl
  rw [hPR] at hr
  simp only [Prod.mk.injEq, ProcResult.ok.injEq] at hr
  have hrec : rec = buildRecord v.outEdges v.inEdges lid s e := hr.2.symm
  subst hrec
  rw [buildRecord_fields]
  refine ⟨rfl, rfl, fun hc => if_neg hc, fun hc => if_neg hc, ?_⟩
  rw [roundTo3, cppRound, if_pos (by norm_num)]
  have h1 : ⌊(1234567 / 100000 : ℚ) * 1000 + 1 / 2⌋ = 12346 := by
    rw [Int.floor_eq_iff]
    constructor
    · norm_num
    · norm_num
  rw [h1]
  norm_num

/-- Witness for the amended C4: the rounding example extracted through
the theorem at the concrete empty store. -/
theorem rounding_amended_witness :
    roundTo3 (1234567 / 100000 : ℚ) = 12346 / 1000 :=
  (rounding_amended storeEmpty reqBasic 1 0 10 emptyVertex 0 (okTrace 1) recEmpty
    rfl rfl rfl processR_empty).2.2.2.2

/-- Claim C5, scenario 1: on the vertex with outgoing transfers at
timestamps 100, 150, 200 and window (100, 200), the call succeeds and
the outgoing aggregates are count 1, sum 10, max 10. -/
theorem scenario_one :
    (ProcessR storeC5 reqC5).2 = ProcResult.ok recC5 ∧
    recC5.numEdge1 = 1 ∧ recC5.sumEdge1Amount = 10 ∧ recC5.maxEdge1Amount = 10 := by
  refine ⟨?_, rfl, rfl, rfl⟩
  have h := processR_ok storeC5 reqC5 1 100 200
    ⟨1, [⟨0, 100, 5⟩, ⟨0, 150, 10⟩, ⟨0, 200, 3⟩], []⟩ 0 rfl rfl rfl
  rw [h]
  show ProcResult.ok
      (buildRecord [⟨0, 100, 5⟩, ⟨0, 150, 10⟩, ⟨0, 200, 3⟩] ([] : List Edge) 0 100 200) =
    ProcResult.ok recC5
  rw [buildRecord_fields, dirScanC5_out, dirScan_nil]
  simp [recC5, roundTo3_zero, roundTo3_ten]

/-- Claim C6: the outgoing aggregates of a successful query depend
only on the outgoing edge list of the resolved vertex, and the incoming
aggregates only on its incoming edge list: two stores resolving the
same label id whose vertices agree on one direction produce identical
fields for that direction, however the edges of the other direction differ
(permuted, duplicated or replaced arbitrarily). -/
theorem direction_independence (s₁ s₂ : Store) (req : RawRequest) (id st en : ℤ)
    (v₁ v₂ : Vertex) (tr₁ tr₂ : List StoreEvent) (r₁ r₂ : OutRecord)
    (hp : parseReq req = Except.ok (id, st, en))
    (hlid : s₁.transferLid = s₂.transferLid)
    (hv₁ : findVertex s₁ id = some v₁) (hv₂ : findVertex s₂ id = some v₂)
    (hr₁ : ProcessR s₁ req = (tr₁, ProcResult.ok r₁))
    (hr₂ : ProcessR s₂ req = (tr₂, ProcResult.ok r₂)) :
    (v₁.outEdges = v₂.outEdges →
      r₁.sumEdge1Amount = r₂.sumEdge1Amount ∧ r₁.maxEdge1Amount = r₂.maxEdge1Amount ∧
      r₁.numEdge1 = r₂.numEdge1) ∧
    (v₁.inEdges = v₂.inEdges →
      r₁.sumEdge2Amount = r₂.sumEdge2Amount ∧ r₁.maxEdge2Amount = r₂.maxEdge2Amount ∧
      r₁.numEdge2 = r₂.numEdge2) := by
  rcases hl1 : s₁.transferLid with _ | lid
  · simp [ProcessR, hp, hv₁, hl1] at hr₁
  · have hl2 : s₂.transferLid = some lid := by rw [← hlid, hl1]
    have h1 := processR_ok s₁ req id st en v₁ lid hp hv₁ hl1
    have h2 := processR_ok s₂ req id st en v₂ lid hp hv₂ hl2
    rw [h1] at hr₁
    rw [h2] at hr₂
    simp only [Prod.mk.injEq, ProcResult.ok.injEq] at hr₁ hr₂
    have e1 : r₁ = buildRecord v₁.outEdges v₁.inEdges lid st en := hr₁.2.symm
    have e2 : r₂ = buildRecord v₂.outEdges v₂.inEdges lid st en := hr₂.2.symm
    subst e1
    subst e2
    constructor
    · intro ho
      rw [buildRecord_fields, buildRecord_fields, ho]
      exact ⟨rfl, rfl, rfl⟩
    · intro hi
      rw [buildRecord_fields, buildRecord_fields, hi]
      exact ⟨rfl, rfl, rfl⟩

/-- Witness for C6 at two concrete stores that agree on the (empty)
outgoing list and differ in the incoming list. -/
theorem direction_independence_witness :
    recEmpty.sumEdge1Amount = recEmpty.sumEdge1Amount ∧
    recEmpty.maxEdge1Amount = recEmpty.maxEdge1Amount ∧
    recEmpty.numEdge1 = recEmpty.numEdge1 :=
  (direction_independence storeEmpty storeInX reqBasic 1 0 10 emptyVertex vertexInX
    (okTrace 1) (okTrace 1) recEmpty recEmpty rfl rfl rfl rfl
    processR_empty processR_inX).1 rfl

/-- Claim C7: a request with a missing or malformed field fails during
parsing, before any store access: the call returns a failure carrying
a nonempty human-readable message, and the store-access trace is
empty (no transaction, no vertex, label or edge lookup). -/
theorem parse_error_no_store_access (store : Store) (req : RawRequest)
    (h : req.id = none ∨ req.startTime = none ∨ req.endTime = none) :
    ∃ msg, ProcessR store req = ([], ProcResult.parseError msg) ∧ msg ≠ "" := by
  rcases req with ⟨i, st, en⟩
  rcases i with _ | iv
  · exact ⟨("json parse error: missing or malformed field id"),
      by simp [ProcessR, parseReq], by decide⟩
  · rcases st with _ | sv
    · exact ⟨("json parse error: missing or malformed field startTime"),
        by simp [ProcessR, parseReq], by decide⟩
    · rcases en with _ | ev
      · exact ⟨("json parse error: missing or malformed field endTime"),
          by simp [ProcessR, parseReq], by decide⟩
      · simp at h

/-- Witness for C7 at the concrete request with a missing endTime. -/
theorem parse_error_no_store_access_witness :
    ∃ msg, ProcessR storeEmpty reqMissingEnd = ([], ProcResult.parseError msg) ∧ msg ≠ "" :=
  parse_error_no_store_access storeEmpty reqMissingEnd (Or.inr (Or.inr rfl))

/-- Claim C8: when the account id resolves to no vertex, or the
transfer edge label is undeclared, the call ends in the propagated
store-level failure and never emits the six-field record. -/
theorem not_found_store_failure (store : Store) (req : RawRequest) (id s e : ℤ)
    (hp : parseReq req = Except.ok (id, s, e))
    (h : findVertex store id = none ∨ store.transferLid = none) :
    (ProcessR store req).2 = ProcResult.storeError := by
  rcases hfv : findVertex store id with _ | v
  · simp [ProcessR, hp, hfv]
  · rcases h with h | h
    · rw [hfv] at h
      exact absurd h (by simp)
    · simp [ProcessR, hp, hfv, h]

/-- Witness for C8 at the concrete store with no vertex for account
id 2. -/
theorem not_found_store_failure_witness :
    (ProcessR storeEmpty reqUnknown).2 = ProcResult.storeError :=
  not_found_store_failure storeEmpty reqUnknown 2 0 10 rfl (Or.inl rfl)

end TSR2
